import Mathlib

/-!
# Verification of the user-manager console application

Shallow embedding of the core logic of the TypeScript console CRUD
application (persistence + validation + repository operations), together
with theorems settling the specification claims.

Modelling conventions:
* JS strings are Lean `String`s; `jsTrim`, `jsToLower` transcribe
  `trim()` / `toLowerCase()` (accurate on the ASCII range exercised here).
* JS numbers flowing through `parseOptionalAge` are modelled as exact
  rationals (`Rat`); `Number.isInteger n` becomes `n.den = 1`.
* The `users.json` file together with `JSON.parse` / `JSON.stringify` /
  `Array.isArray` is abstracted by `FileContent`, at exactly the
  granularity the code observes: the file is missing, holds a JSON array
  of records, holds non-array JSON, or cannot be read/parsed.
* Thrown `Error`s are an explicit `Err` result; the constructor records
  the error kind the specification assigns to each thrown message.
* `randomUUID()` is modelled by passing the fresh id as an argument.
-/

/-- JS `toLowerCase()` on one character (ASCII-accurate, like the data
this application handles). -/
def jsLowerChar (c : Char) : Char :=
  if 'A' ≤ c && c ≤ 'Z' then Char.ofNat (c.toNat + 32) else c

/-- JS `String.prototype.toLowerCase()`. -/
def jsToLower (s : String) : String :=
  String.mk (s.toList.map jsLowerChar)

/-- JS `String.prototype.trim()`: strip leading and trailing whitespace. -/
def jsTrim (s : String) : String :=
  String.mk
    (((s.toList.dropWhile Char.isWhitespace).reverse.dropWhile Char.isWhitespace).reverse)

instance {ε α : Type} [DecidableEq ε] [DecidableEq α] : DecidableEq (Except ε α) := fun x y =>
  match x, y with
  | .ok a, .ok b =>
    if h : a = b then isTrue (by rw [h]) else isFalse (by intro hc; cases hc; exact h rfl)
  | .error a, .error b =>
    if h : a = b then isTrue (by rw [h]) else isFalse (by intro hc; cases hc; exact h rfl)
  | .ok _, .error _ => isFalse (by intro hc; cases hc)
  | .error _, .ok _ => isFalse (by intro hc; cases hc)

/-- A user record, mirroring `type User = { id; name; email; age? }`. -/
structure User where
  id : String
  name : String
  email : String
  age : Option Int
deriving DecidableEq, Repr

/-- The error kinds of the system (§7 of the spec), each carrying the
thrown message. -/
inductive Err where
  | validation (msg : String)
  | conflict (msg : String)
  | notFound (msg : String)
  | io (msg : String)
deriving DecidableEq, Repr

/-- A character admissible in the email regex character class `[^\s@]`. -/
def emailChar (c : Char) : Bool :=
  !c.isWhitespace && c != '@'

/-- Transcription of `isValidEmail` and its regex `/^[^\s@]+@[^\s@]+\.[^\s@]+$/`:
the string is `local@domain` with exactly one `@`, a non-empty local part,
no whitespace, and the domain contains a `.` that is neither its first nor
its last character. -/
def isValidEmail (email : String) : Bool :=
  match email.toList.splitOn '@' with
  | [lp, dom] =>
    !lp.isEmpty && lp.all emailChar && dom.all emailChar &&
      ((dom.drop 1).dropLast.contains '.')
  | _ => false

/-- Transcription of `requireNonEmpty`: trims, fails on empty, returns the trimmed string. -/
def requireNonEmpty (input : String) (fieldName : String) : Except Err String :=
  let value := jsTrim input
  if value = "" then .error (Err.validation (fieldName ++ " không được để trống."))
  else .ok value

/-- Whether `s` starts with `pat` (JS `String.prototype.startsWith` on char lists). -/
def startsWithL : List Char → List Char → Bool
  | [], _ => true
  | _ :: _, [] => false
  | a :: as, b :: bs => a == b && startsWithL as bs

/-- Whether `pat` occurs as a contiguous substring of `s`
(JS `String.prototype.includes` on char lists). -/
def substrOfL (pat : List Char) : List Char → Bool
  | [] => startsWithL pat []
  | c :: rest => startsWithL pat (c :: rest) || substrOfL pat rest

/-- JS `s.includes(pat)` on strings. -/
def strIncludes (s pat : String) : Bool :=
  substrOfL pat.toList s.toList

/-- The abstract "contains as a contiguous substring" relation the
specification speaks of: `s` decomposes as `l ++ pat ++ r`. -/
def SubstringOf (pat s : List Char) : Prop :=
  ∃ l r, s = l ++ (pat ++ r)

theorem startsWithL_iff (pat s : List Char) :
    startsWithL pat s = true ↔ ∃ t, s = pat ++ t := by
  induction pat generalizing s with
  | nil =>
    simp only [startsWithL, List.nil_append, true_iff]
    exact ⟨s, rfl⟩
  | cons a as ih =>
    cases s with
    | nil =>
      simp only [startsWithL, Bool.false_eq_true, false_iff]
      rintro ⟨t, ht⟩
      exact List.noConfusion ht
    | cons b bs =>
      simp only [startsWithL, Bool.and_eq_true, beq_iff_eq, ih, List.cons_append,
        List.cons.injEq]
      constructor
      · rintro ⟨rfl, t, rfl⟩
        exact ⟨t, rfl, rfl⟩
      · rintro ⟨t, rfl, rfl⟩
        exact ⟨rfl, t, rfl⟩

theorem substrOfL_iff (pat s : List Char) :
    substrOfL pat s = true ↔ SubstringOf pat s := by
  induction s with
  | nil =>
    simp only [substrOfL, startsWithL_iff, SubstringOf]
    constructor
    · rintro ⟨t, ht⟩
      exact ⟨[], t, ht⟩
    · rintro ⟨l, r, hlr⟩
      rcases List.append_eq_nil.mp hlr.symm with ⟨rfl, hr⟩
      exact ⟨r, hr.symm⟩
  | cons c rest ih =>
    simp only [substrOfL, Bool.or_eq_true, startsWithL_iff, ih, SubstringOf]
    constructor
    · rintro (⟨t, ht⟩ | ⟨l, r, hlr⟩)
      · exact ⟨[], t, ht⟩
      · exact ⟨c :: l, r, by rw [hlr]; rfl⟩
    · rintro ⟨l, r, hlr⟩
      cases l with
      | nil =>
        exact Or.inl ⟨r, by simpa using hlr⟩
      | cons x xs =>
        rcases List.cons.inj hlr with ⟨-, hrest⟩
        exact Or.inr ⟨xs, r, hrest⟩

/-- The result of JS `Number(string)` conversion: `NaN`, a signed infinity,
or a finite value (modelled as an exact rational; the float64 rounding of
extreme literals is outside the scope of this development). -/
inductive JsNum where
  | nan
  | inf (neg : Bool)
  | val (q : Rat)
deriving DecidableEq, Repr

/-- Value of a list of decimal digits, most significant first. -/
def decDigits (cs : List Char) : Nat :=
  cs.foldl (fun acc c => 10 * acc + (c.toNat - '0'.toNat)) 0

/-- Value of a hexadecimal digit. -/
def hexDigitVal (c : Char) : Nat :=
  if c.isDigit then c.toNat - '0'.toNat
  else if 'a' ≤ c && c ≤ 'f' then c.toNat - 'a'.toNat + 10
  else c.toNat - 'A'.toNat + 10

/-- Value of a digit list in base `b`, most significant first. -/
def radixVal (b : Nat) (cs : List Char) : Nat :=
  cs.foldl (fun acc c => b * acc + hexDigitVal c) 0

def isHexDigit (c : Char) : Bool :=
  c.isDigit || ('a' ≤ c && c ≤ 'f') || ('A' ≤ c && c ≤ 'F')

def isOctDigit (c : Char) : Bool := '0' ≤ c && c ≤ '7'

def isBinDigit (c : Char) : Bool := c == '0' || c == '1'

/-- Parse the optional exponent part `[eE][+-]?digits` of a decimal
literal; the whole remainder must be consumed. Returns the exponent. -/
def parseExpPart : List Char → Option Int
  | [] => some 0
  | c :: rest =>
    if c = 'e' ∨ c = 'E' then
      match rest with
      | '+' :: ds =>
        if !ds.isEmpty && ds.all Char.isDigit then some (Int.ofNat (decDigits ds)) else none
      | '-' :: ds =>
        if !ds.isEmpty && ds.all Char.isDigit then some (-(Int.ofNat (decDigits ds))) else none
      | ds =>
        if !ds.isEmpty && ds.all Char.isDigit then some (Int.ofNat (decDigits ds)) else none
    else none

/-- The exact value `m / 10^fracLen * 10^e` of a decimal literal with
digit value `m`, `fracLen` fractional digits and exponent `e`. -/
def decValue (m : Nat) (fracLen : Nat) (e : Int) : Rat :=
  let net : Int := e - (fracLen : Int)
  if 0 ≤ net then Rat.divInt ((m : Int) * (10 : Int) ^ net.toNat) 1
  else Rat.divInt (m : Int) ((10 : Int) ^ (-net).toNat)

/-- Parse an unsigned decimal literal `digits[.digits][exp]` or
`.digits[exp]`, consuming the whole input. -/
def parseUnsignedDec (cs : List Char) : Option Rat :=
  let ip := cs.takeWhile Char.isDigit
  let r1 := cs.dropWhile Char.isDigit
  match r1 with
  | '.' :: r2 =>
    let fp := r2.takeWhile Char.isDigit
    let r3 := r2.dropWhile Char.isDigit
    if ip.isEmpty && fp.isEmpty then none
    else
      match parseExpPart r3 with
      | none => none
      | some e => some (decValue (decDigits (ip ++ fp)) fp.length e)
  | _ =>
    if ip.isEmpty then none
    else
      match parseExpPart r1 with
      | none => none
      | some e => some (decValue (decDigits ip) 0 e)

/-- Parse a decimal literal with optional sign, or `[+-]?Infinity`. -/
def parseSignedBody (cs : List Char) (neg : Bool) : JsNum :=
  if cs = "Infinity".toList then JsNum.inf neg
  else
    match parseUnsignedDec cs with
    | none => JsNum.nan
    | some q => JsNum.val (if neg then Rat.neg q else q)

def parseSignedDec : List Char → JsNum
  | '+' :: rest => parseSignedBody rest false
  | '-' :: rest => parseSignedBody rest true
  | cs => parseSignedBody cs false

/-- JS `Number(s)` on a string: trims, then accepts the decimal grammar
(optional sign, digits, fraction, exponent, `Infinity`) or an unsigned
`0x`/`0o`/`0b` radix literal; anything else is `NaN`.
The empty (trimmed) string converts to `0`. -/
def jsNumber (s : String) : JsNum :=
  match (jsTrim s).toList with
  | [] => JsNum.val 0
  | '0' :: c :: rest =>
    if c = 'x' ∨ c = 'X' then
      if !rest.isEmpty && rest.all isHexDigit then JsNum.val ((radixVal 16 rest : Nat) : Rat)
      else JsNum.nan
    else if c = 'o' ∨ c = 'O' then
      if !rest.isEmpty && rest.all isOctDigit then JsNum.val ((radixVal 8 rest : Nat) : Rat)
      else JsNum.nan
    else if c = 'b' ∨ c = 'B' then
      if !rest.isEmpty && rest.all isBinDigit then JsNum.val ((radixVal 2 rest : Nat) : Rat)
      else JsNum.nan
    else parseSignedDec ('0' :: c :: rest)
  | cs => parseSignedDec cs

/-- The message thrown for a bad age. -/
def ageErrMsg : String := "Tuổi phải là số nguyên trong khoảng 0–150."

/-- Transcription of `parseOptionalAge`: trims; empty means "absent"; otherwise converts
with `Number` and requires `Number.isInteger(n) && 0 <= n && n <= 150`. -/
def parseOptionalAge (input : String) : Except Err (Option Int) :=
  let trimmed := jsTrim input
  if trimmed = "" then .ok none
  else
    match jsNumber trimmed with
    | JsNum.val n =>
      if n.den = 1 ∧ 0 ≤ n ∧ n ≤ 150 then .ok (some n.num)
      else .error (Err.validation ageErrMsg)
    | _ => .error (Err.validation ageErrMsg)

/-- The state of the backing `users.json` file as the code observes it
through `fs.readFile` + `JSON.parse` + `Array.isArray`: missing (ENOENT),
parsed to a JSON array of records, parsed to non-array JSON, or failing to
read/parse with some error. -/
inductive FileContent where
  | missing
  | arrayOf (users : List User)
  | nonArray
  | invalid (msg : String)
deriving DecidableEq, Repr

/-- The sequence of records the persisted file denotes: a missing or
non-array file denotes the empty store; an unreadable file denotes
nothing. -/
def readStore : FileContent → Option (List User)
  | .missing => some []
  | .arrayOf us => some us
  | .nonArray => some []
  | .invalid _ => none

/-- Transcription of `saveUsers`: serializes the full sequence and overwrites the file. -/
def saveUsersFS (users : List User) (_fs : FileContent) : FileContent :=
  .arrayOf users

/-- Transcription of `loadUsers`: reads and parses the file; on ENOENT writes an empty
array (`saveUsers([])`) and returns `[]`; non-array JSON degrades to
`[]`; any other failure is rethrown. Returns the file state after the
call together with the result. -/
def loadUsersFS : FileContent → FileContent × Except Err (List User)
  | .missing => (saveUsersFS [] .missing, .ok [])
  | .arrayOf us => (.arrayOf us, .ok us)
  | .nonArray => (.nonArray, .ok [])
  | .invalid m => (.invalid m, .error (Err.io m))

/-- In-memory step of `addUser` (between `loadUsers` and `saveUsers`):
validate the email shape, reject a case-insensitive duplicate email,
append `{ id: randomUUID(), name, email, age }`. -/
def addUser (users : List User) (freshId name email : String) (age : Option Int) :
    Except Err (User × List User) :=
  if !(isValidEmail email) then .error (Err.validation "Email không hợp lệ.")
  else if users.any (fun u => jsToLower u.email == jsToLower email) then
    .error (Err.conflict "Email đã tồn tại.")
  else
    let user : User := { id := freshId, name := name, email := email, age := age }
    .ok (user, users ++ [user])

/-- The optional-field update object (`Partial<Omit<User, "id">>`) as the shell
builds it: a field is `some v` exactly when the key is present. -/
structure Updates where
  name : Option String
  email : Option String
  age : Option Int
deriving DecidableEq, Repr

/-- The object spread `{ ...user, ...updates }`: every present field of
`updates` overrides the record; `id` is never overridden. -/
def applyUpdates (u : User) (upd : Updates) : User :=
  { id := u.id
    name := upd.name.getD u.name
    email := upd.email.getD u.email
    age := match upd.age with | some a => some a | none => u.age }

/-- Transcription of `users.findIndex(u => u.id === id)`, paired with the found record. -/
def findUserIdx : List User → String → Option (Nat × User)
  | [], _ => none
  | u :: rest, id =>
    if u.id == id then some (0, u)
    else (findUserIdx rest id).map (fun p => (p.1 + 1, p.2))

/-- In-memory step of `updateUser`: locate the record by id (else
`NotFoundError`); if `updates.email` is truthy (present and non-empty),
require a valid shape and no case-insensitive collision with a record of
a different id; then overwrite index `idx` with the spread record. -/
def updateUser (users : List User) (id : String) (upd : Updates) :
    Except Err (User × List User) :=
  match findUserIdx users id with
  | none => .error (Err.notFound "Không tìm thấy User với id đã nhập.")
  | some (idx, old) =>
    let emailCheck : Except Err Unit :=
      match upd.email with
      | none => .ok ()
      | some e =>
        if e == "" then .ok ()
        else if !(isValidEmail e) then .error (Err.validation "Email không hợp lệ.")
        else if users.any (fun u => jsToLower u.email == jsToLower e && u.id != id) then
          .error (Err.conflict "Email đã tồn tại ở user khác.")
        else .ok ()
    match emailCheck with
    | .error err => .error err
    | .ok _ =>
      let updated := applyUpdates old upd
      .ok (updated, users.set idx updated)

/-- In-memory step of `deleteUser`: filter out every record with the id;
if nothing was removed, `NotFoundError`. -/
def deleteUser (users : List User) (id : String) : Except Err (List User) :=
  let filtered := users.filter (fun u => u.id != id)
  if filtered.length = users.length then
    .error (Err.notFound "Không tìm thấy User để xoá.")
  else .ok filtered

/-- Whether a record matches a (trimmed, lowercased, non-empty) keyword:
its lowercased id, name, or email contains it as a substring. -/
def userMatches (u : User) (k : String) : Bool :=
  strIncludes (jsToLower u.id) k || strIncludes (jsToLower u.name) k ||
    strIncludes (jsToLower u.email) k

/-- In-memory step of `searchUsers`: trim and lowercase the keyword;
empty keyword returns everything, otherwise filter by `userMatches`. -/
def searchUsers (users : List User) (keyword : String) : List User :=
  let k := jsToLower (jsTrim keyword)
  if k = "" then users else users.filter (fun u => userMatches u k)

/-- The operation `addUser` composed with its load and save: the whole CRUD operation
acting on the persisted file. -/
def addUserFS (fs : FileContent) (freshId name email : String) (age : Option Int) :
    FileContent × Except Err User :=
  match loadUsersFS fs with
  | (fs', .error e) => (fs', .error e)
  | (fs', .ok users) =>
    match addUser users freshId name email age with
    | .error e => (fs', .error e)
    | .ok (u, users') => (saveUsersFS users' fs', .ok u)

/-- The operation `deleteUser` composed with its load and save. -/
def deleteUserFS (fs : FileContent) (id : String) : FileContent × Except Err Bool :=
  match loadUsersFS fs with
  | (fs', .error e) => (fs', .error e)
  | (fs', .ok users) =>
    match deleteUser users id with
    | .error e => (fs', .error e)
    | .ok filtered => (saveUsersFS filtered fs', .ok true)

/-- The operation `searchUsers` composed with its load (search never saves). -/
def searchUsersFS (fs : FileContent) (keyword : String) :
    FileContent × Except Err (List User) :=
  match loadUsersFS fs with
  | (fs', .error e) => (fs', .error e)
  | (fs', .ok users) => (fs', .ok (searchUsers users keyword))

/-- The validation rules a record must satisfy (spec §3): non-empty
trimmed name, email of a valid shape, age absent or an integer in
`[0, 150]`. -/
def validUser (u : User) : Bool :=
  (jsTrim u.name != "") && isValidEmail u.email &&
    (match u.age with
     | none => true
     | some a => decide (0 ≤ a ∧ a ≤ 150))

/-- The store invariant (spec §3): no duplicate ids, no two records with
case-insensitively equal emails, and every record valid. -/
def StoreInv (users : List User) : Prop :=
  (users.map User.id).Nodup ∧
    (users.map (fun u => jsToLower u.email)).Nodup ∧
    ∀ u ∈ users, validUser u = true

instance (users : List User) : Decidable (StoreInv users) := by
  unfold StoreInv; infer_instance

/-! ## Helper lemmas -/

theorem findUserIdx_eq_none (users : List User) (id : String) :
    findUserIdx users id = none ↔ ∀ u ∈ users, u.id ≠ id := by
  induction users with
  | nil => simp [findUserIdx]
  | cons u rest ih =>
    by_cases h : u.id = id
    · simp [findUserIdx, h]
    · cases hrec : findUserIdx rest id with
      | none =>
        simp only [findUserIdx, beq_iff_eq, if_neg h, hrec, Option.map_none',
          List.mem_cons, true_iff]
        rintro v (rfl | hv)
        · exact h
        · exact (ih.mp hrec) v hv
      | some p =>
        simp only [findUserIdx, beq_iff_eq, if_neg h, hrec, Option.map_some']
        constructor
        · intro hc; exact Option.noConfusion hc
        · intro hall
          have hnone : findUserIdx rest id = none :=
            ih.mpr (fun v hv => hall v (List.mem_cons_of_mem u hv))
          rw [hrec] at hnone
          exact Option.noConfusion hnone

theorem findUserIdx_eq_some (users : List User) (id : String) (i : Nat) (old : User) :
    findUserIdx users id = some (i, old) → users.get? i = some old ∧ old.id = id := by
  induction users generalizing i with
  | nil => intro hc; exact Option.noConfusion hc
  | cons u rest ih =>
    by_cases h : u.id = id
    · simp only [findUserIdx, beq_iff_eq, if_pos h]
      rintro heq
      obtain ⟨rfl, rfl⟩ : i = 0 ∧ old = u := by
        cases heq; exact ⟨rfl, rfl⟩
      exact ⟨rfl, h⟩
    · simp only [findUserIdx, beq_iff_eq, if_neg h]
      cases hrec : findUserIdx rest id with
      | none => intro hc; exact Option.noConfusion hc
      | some p =>
        simp only [Option.map_some', Option.some_inj]
        rintro heq
        obtain ⟨rfl, rfl⟩ : i = p.1 + 1 ∧ old = p.2 := by
          cases heq; exact ⟨rfl, rfl⟩
        obtain ⟨hget, hid⟩ := ih p.1 hrec
        exact ⟨by simpa using hget, hid⟩

theorem nodup_get?_inj {α : Type} {l : List α} {i j : Nat} {a : α}
    (h : l.Nodup) (hi : l.get? i = some a) (hj : l.get? j = some a) : i = j := by
  induction l generalizing i j with
  | nil => simp at hi
  | cons x xs ih =>
    cases i with
    | zero =>
      cases j with
      | zero => rfl
      | succ j =>
        simp only [List.get?_cons_zero, Option.some_inj] at hi
        simp only [List.get?_cons_succ] at hj
        exact absurd (hi ▸ List.get?_mem hj) (List.nodup_cons.mp h).1
    | succ i =>
      cases j with
      | zero =>
        simp only [List.get?_cons_zero, Option.some_inj] at hj
        simp only [List.get?_cons_succ] at hi
        exact absurd (hj ▸ List.get?_mem hi) (List.nodup_cons.mp h).1
      | succ j =>
        simp only [List.get?_cons_succ] at hi hj
        exact congrArg Nat.succ (ih (List.nodup_cons.mp h).2 hi hj)

theorem nodup_set_of {α : Type} {l : List α} {i : Nat} {a : α}
    (h : l.Nodup) (ha : ∀ j, j ≠ i → l.get? j ≠ some a) : (l.set i a).Nodup := by
  induction l generalizing i with
  | nil => simp
  | cons x xs ih =>
    cases i with
    | zero =>
      simp only [List.set_cons_zero, List.nodup_cons]
      refine ⟨fun hmem => ?_, (List.nodup_cons.mp h).2⟩
      obtain ⟨j, hj⟩ := List.get?_of_mem hmem
      exact ha (j + 1) (Nat.succ_ne_zero j) (by simpa using hj)
    | succ i =>
      simp only [List.set_cons_succ, List.nodup_cons]
      constructor
      · intro hmem
        rcases List.mem_or_eq_of_mem_set hmem with hx | rfl
        · exact (List.nodup_cons.mp h).1 hx
        · exact ha 0 (by omega) rfl
      · exact ih (List.nodup_cons.mp h).2
          (fun j hj => by simpa using ha (j + 1) (by omega))

theorem searchUsers_mem_subset (users : List User) (kw : String) :
    ∀ u ∈ searchUsers users kw, u ∈ users := by
  intro u hu
  unfold searchUsers at hu
  by_cases h : jsToLower (jsTrim kw) = ""
  · rwa [if_pos h] at hu
  · rw [if_neg h] at hu
    exact (List.mem_filter.mp hu).1

/-! ## Claim theorems -/

/-- C7: `loadUsers` creates the missing file by writing an empty array and
returns `[]`; non-array JSON content degrades to `[]` without error; any
other read/parse failure propagates; an array file is returned as-is. -/
theorem loadUsers_fallback_spec :
    loadUsersFS FileContent.missing = (saveUsersFS [] FileContent.missing, Except.ok []) ∧
    loadUsersFS FileContent.nonArray = (FileContent.nonArray, Except.ok []) ∧
    (∀ m, loadUsersFS (FileContent.invalid m)
      = (FileContent.invalid m, Except.error (Err.io m))) ∧
    (∀ us, loadUsersFS (FileContent.arrayOf us) = (FileContent.arrayOf us, Except.ok us)) :=
  ⟨rfl, rfl, fun _ => rfl, fun _ => rfl⟩

/-- C9: `save(X)` followed by `load()` yields exactly `X` again (order and
every field preserved), for any store of valid records. -/
theorem save_load_roundtrip (xs : List User) (fs : FileContent)
    (_hvalid : ∀ u ∈ xs, validUser u = true) :
    loadUsersFS (saveUsersFS xs fs) = (FileContent.arrayOf xs, Except.ok xs) := rfl

/-- Witness for `save_load_roundtrip` at a concrete one-record store. -/
theorem save_load_roundtrip_witness :
    loadUsersFS (saveUsersFS [⟨"u1", "An", "an@x.com", some 30⟩] FileContent.missing)
      = (FileContent.arrayOf [⟨"u1", "An", "an@x.com", some 30⟩],
         Except.ok [⟨"u1", "An", "an@x.com", some 30⟩]) :=
  save_load_roundtrip [⟨"u1", "An", "an@x.com", some 30⟩] FileContent.missing (by decide)

/-- C3: `search` trims and lowercases the keyword; an empty (trimmed)
keyword returns the whole store; otherwise the result is exactly the
records whose lowercased id, name, or email contains the keyword as a
substring, in the store's order (a sublist of the store). -/
theorem searchUsers_spec (users : List User) (kw : String) :
    (jsToLower (jsTrim kw) = "" → searchUsers users kw = users) ∧
    (jsToLower (jsTrim kw) ≠ "" →
      (searchUsers users kw).Sublist users ∧
      ∀ u, u ∈ searchUsers users kw ↔
        u ∈ users ∧
          (SubstringOf (jsToLower (jsTrim kw)).toList (jsToLower u.id).toList ∨
           SubstringOf (jsToLower (jsTrim kw)).toList (jsToLower u.name).toList ∨
           SubstringOf (jsToLower (jsTrim kw)).toList (jsToLower u.email).toList)) := by
  constructor
  · intro h; unfold searchUsers; rw [if_pos h]
  · intro h
    constructor
    · unfold searchUsers; rw [if_neg h]; exact List.filter_sublist users
    · intro u
      unfold searchUsers
      rw [if_neg h, List.mem_filter]
      simp only [userMatches, strIncludes, Bool.or_eq_true, substrOfL_iff, or_assoc]

/-- Witness for `searchUsers_spec`: membership characterization at a
concrete store and keyword. -/
theorem searchUsers_spec_witness :
    (⟨"u1", "An", "an@x.com", none⟩ : User)
        ∈ searchUsers [⟨"u1", "An", "an@x.com", none⟩, ⟨"u2", "Bo", "bo@x.com", none⟩] "AN" ↔
      (⟨"u1", "An", "an@x.com", none⟩ : User)
          ∈ [(⟨"u1", "An", "an@x.com", none⟩ : User), ⟨"u2", "Bo", "bo@x.com", none⟩] ∧
        (SubstringOf (jsToLower (jsTrim "AN")).toList (jsToLower "u1").toList ∨
         SubstringOf (jsToLower (jsTrim "AN")).toList (jsToLower "An").toList ∨
         SubstringOf (jsToLower (jsTrim "AN")).toList (jsToLower "an@x.com").toList) :=
  ((searchUsers_spec [⟨"u1", "An", "an@x.com", none⟩, ⟨"u2", "Bo", "bo@x.com", none⟩] "AN").2
    (by decide)).2 ⟨"u1", "An", "an@x.com", none⟩

/-- C10: when some record has the id, `delete` succeeds and removes every
record with that id — the result is a subsequence of the store containing
exactly the records with a different id. -/
theorem deleteUser_removes_all_matching (users : List User) (id : String)
    (hex : ∃ u ∈ users, u.id = id) :
    ∃ s', deleteUser users id = .ok s' ∧
      (∀ u ∈ s', u.id ≠ id) ∧
      s'.Sublist users ∧
      (∀ u ∈ users, u.id ≠ id → u ∈ s') ∧
      s'.length < users.length := by
  obtain ⟨w, hw, hwid⟩ := hex
  have hlt : (users.filter (fun u => u.id != id)).length < users.length := by
    refine List.length_filter_lt_length_iff_exists.mpr ⟨w, hw, ?_⟩
    simp [hwid]
  refine ⟨users.filter (fun u => u.id != id), ?_, ?_, List.filter_sublist users, ?_, hlt⟩
  · unfold deleteUser
    rw [if_neg (Nat.ne_of_lt hlt)]
  · intro u hu
    have := (List.mem_filter.mp hu).2
    simpa using this
  · intro u hu hne
    exact List.mem_filter.mpr ⟨hu, by simpa using hne⟩

/-- Witness for `deleteUser_removes_all_matching` at a corrupted store
holding two records with the same id. -/
theorem deleteUser_removes_all_matching_witness :
    ∃ s', deleteUser
        [⟨"1", "A", "a@x.com", none⟩, ⟨"2", "B", "b@x.com", none⟩,
         ⟨"1", "C", "c@x.com", none⟩] "1" = .ok s' ∧
      (∀ u ∈ s', u.id ≠ "1") ∧
      s'.Sublist
        [⟨"1", "A", "a@x.com", none⟩, ⟨"2", "B", "b@x.com", none⟩,
         ⟨"1", "C", "c@x.com", none⟩] ∧
      (∀ u ∈ [(⟨"1", "A", "a@x.com", none⟩ : User), ⟨"2", "B", "b@x.com", none⟩,
         ⟨"1", "C", "c@x.com", none⟩], u.id ≠ "1" → u ∈ s') ∧
      s'.length <
        ([⟨"1", "A", "a@x.com", none⟩, ⟨"2", "B", "b@x.com", none⟩,
          ⟨"1", "C", "c@x.com", none⟩] : List User).length :=
  deleteUser_removes_all_matching
    [⟨"1", "A", "a@x.com", none⟩, ⟨"2", "B", "b@x.com", none⟩, ⟨"1", "C", "c@x.com", none⟩]
    "1" (by decide)

/-- C1 (counterexample): with a (corrupted) store whose record has the
invalid email `"bad"`, adding `"BAD"` — equal case-insensitively to an
existing email — fails with the VALIDATION error, not the conflict error,
because `addUser` checks `isValidEmail` before the duplicate check. -/
theorem addUser_dup_invalid_email_not_conflict :
    jsToLower "BAD" = jsToLower "bad" ∧
    addUserFS (FileContent.arrayOf [⟨"1", "A", "bad", none⟩]) "f" "B" "BAD" none
      = (FileContent.arrayOf [⟨"1", "A", "bad", none⟩],
         Except.error (Err.validation "Email không hợp lệ.")) ∧
    Err.validation "Email không hợp lệ." ≠ Err.conflict "Email đã tồn tại." := by
  decide

/-- C1 (amended): if the email passes `isValidEmail` and some existing
record's email equals it case-insensitively, `add` fails with the
`ConflictError` message and the persisted store is unchanged. -/
theorem addUser_conflict_leaves_store_unchanged (fs : FileContent) (users : List User)
    (freshId name email : String) (age : Option Int)
    (hread : readStore fs = some users)
    (hvalid : isValidEmail email = true)
    (hconf : ∃ u ∈ users, jsToLower u.email = jsToLower email) :
    ∃ fs', addUserFS fs freshId name email age
        = (fs', Except.error (Err.conflict "Email đã tồn tại.")) ∧
      readStore fs' = some users := by
  obtain ⟨w, hw, hwe⟩ := hconf
  have hany : users.any (fun u => jsToLower u.email == jsToLower email) = true :=
    List.any_eq_true.mpr ⟨w, hw, by simpa using hwe⟩
  have hadd : addUser users freshId name email age
      = .error (Err.conflict "Email đã tồn tại.") := by
    unfold addUser
    rw [hvalid]
    simp only [Bool.not_true, Bool.false_eq_true, if_false, hany, if_true]
  cases fs with
  | missing =>
    have husers : users = [] := by simpa [readStore] using hread.symm
    subst husers
    exact absurd hw (List.not_mem_nil w)
  | arrayOf us =>
    have husers : us = users := by simpa [readStore] using hread
    subst husers
    exact ⟨FileContent.arrayOf us, by simp [addUserFS, loadUsersFS, hadd], rfl⟩
  | nonArray =>
    have husers : users = [] := by simpa [readStore] using hread.symm
    subst husers
    exact absurd hw (List.not_mem_nil w)
  | invalid m => simp [readStore] at hread

/-- Witness for `addUser_conflict_leaves_store_unchanged` at a concrete
store with a case-insensitive duplicate. -/
theorem addUser_conflict_leaves_store_unchanged_witness :
    ∃ fs', addUserFS (FileContent.arrayOf [⟨"u1", "An", "an@x.com", some 30⟩])
        "u2" "Bob" "AN@x.com" none
        = (fs', Except.error (Err.conflict "Email đã tồn tại.")) ∧
      readStore fs' = some [⟨"u1", "An", "an@x.com", some 30⟩] :=
  addUser_conflict_leaves_store_unchanged
    (FileContent.arrayOf [⟨"u1", "An", "an@x.com", some 30⟩])
    [⟨"u1", "An", "an@x.com", some 30⟩] "u2" "Bob" "AN@x.com" none
    rfl (by decide) ⟨⟨"u1", "An", "an@x.com", some 30⟩, by decide, by decide⟩

/-- C4 (counterexample): an `updates` object whose `email` field is
present but the empty string bypasses both the shape check and the
collision check (JS truthiness) — `update` succeeds and stores the empty,
invalid email. -/
theorem updateUser_empty_email_bypasses_validation :
    updateUser [⟨"1", "A", "a@b.c", none⟩] "1" ⟨none, some "", none⟩
      = .ok (⟨"1", "A", "", none⟩, [⟨"1", "A", "", none⟩]) ∧
    isValidEmail "" = false := by
  decide

/-- C4 (amended): `update` fails with `NotFoundError` when no record has
the id; and whenever `updates.email` is present with a NON-EMPTY value, a
successful update implies that email passed `isValidEmail` and collides
case-insensitively with no record of a different id. -/
theorem updateUser_notFound_and_email_checks (users : List User) (id : String)
    (upd : Updates) :
    ((∀ u ∈ users, u.id ≠ id) →
      updateUser users id upd
        = .error (Err.notFound "Không tìm thấy User với id đã nhập.")) ∧
    (∀ e u s', upd.email = some e → e ≠ "" → updateUser users id upd = .ok (u, s') →
      isValidEmail e = true ∧
        ∀ v ∈ users, v.id ≠ id → jsToLower v.email ≠ jsToLower e) := by
  constructor
  · intro hnone
    unfold updateUser
    rw [(findUserIdx_eq_none users id).mpr hnone]
  · intro e u s' he hne h
    cases hfind : findUserIdx users id with
    | none => rw [updateUser, hfind] at h; exact Except.noConfusion h
    | some p =>
      obtain ⟨idx, old⟩ := p
      rw [updateUser, hfind, he] at h
      have hbe : (e == "") = false := beq_eq_false_iff_ne.mpr hne
      simp only [hbe, Bool.false_eq_true, if_false] at h
      by_cases hval : isValidEmail e
      · simp only [hval, Bool.not_true, Bool.false_eq_true, if_false] at h
        by_cases hany : users.any (fun v => jsToLower v.email == jsToLower e && v.id != id)
        · simp only [hany, if_true] at h
          exact Except.noConfusion h
        · refine ⟨hval, fun v hv hvid hveq => ?_⟩
          refine hany (List.any_eq_true.mpr ⟨v, hv, ?_⟩)
          simp [hveq, hvid]
      · rw [Bool.not_eq_true] at hval
        simp only [hval, Bool.not_false, if_true] at h
        exact Except.noConfusion h

/-- Witness for `updateUser_notFound_and_email_checks`: a concrete
successful email update yields a valid, non-colliding email. -/
theorem updateUser_notFound_and_email_checks_witness :
    isValidEmail "c@b.c" = true ∧
      ∀ v ∈ [(⟨"1", "A", "a@b.c", none⟩ : User), ⟨"2", "B", "b@b.c", none⟩],
        v.id ≠ "1" → jsToLower v.email ≠ jsToLower "c@b.c" :=
  (updateUser_notFound_and_email_checks
      [⟨"1", "A", "a@b.c", none⟩, ⟨"2", "B", "b@b.c", none⟩] "1"
      ⟨none, some "c@b.c", none⟩).2
    "c@b.c" ⟨"1", "A", "c@b.c", none⟩
    [⟨"1", "A", "c@b.c", none⟩, ⟨"2", "B", "b@b.c", none⟩]
    rfl (by decide) (by decide)

/-- C5: a successful `update` spreads the provided fields over the found
record: present fields take the new value, omitted fields keep the old
one, the id is unchanged, and every position holding a record of a
different id is untouched. -/
theorem updateUser_frame (users : List User) (id : String) (upd : Updates)
    (u : User) (s' : List User) (h : updateUser users id upd = .ok (u, s')) :
    ∃ i old, users.get? i = some old ∧ old.id = id ∧
      u.id = old.id ∧
      (∀ n, upd.name = some n → u.name = n) ∧
      (upd.name = none → u.name = old.name) ∧
      (∀ e, upd.email = some e → u.email = e) ∧
      (upd.email = none → u.email = old.email) ∧
      (∀ a, upd.age = some a → u.age = some a) ∧
      (upd.age = none → u.age = old.age) ∧
      s'.length = users.length ∧ s'.get? i = some u ∧
      (∀ j v, users.get? j = some v → v.id ≠ id → s'.get? j = some v) := by
  cases hfind : findUserIdx users id with
  | none =>
    rw [updateUser, hfind] at h
    exact Except.noConfusion h
  | some p =>
    obtain ⟨idx, old⟩ := p
    obtain ⟨hget, hid⟩ := findUserIdx_eq_some users id idx old hfind
    rw [updateUser, hfind] at h
    have hok : u = applyUpdates old upd ∧ s' = users.set idx (applyUpdates old upd) := by
      rcases hupde : upd.email with _ | e
      · rw [hupde] at h
        simp only [] at h
        injection h with hp
        injection hp with ha hb
        exact ⟨ha.symm, hb.symm⟩
      · rw [hupde] at h
        by_cases hbe : (e == "") = true
        · simp only [hbe, if_true] at h
          injection h with hp
          injection hp with ha hb
          exact ⟨ha.symm, hb.symm⟩
        · rw [Bool.not_eq_true] at hbe
          simp only [hbe, Bool.false_eq_true, if_false] at h
          by_cases hval : isValidEmail e
          · simp only [hval, Bool.not_true, Bool.false_eq_true, if_false] at h
            by_cases hany :
                users.any (fun v => jsToLower v.email == jsToLower e && v.id != id)
            · simp only [hany, if_true] at h
              exact Except.noConfusion h
            · rw [Bool.not_eq_true] at hany
              simp only [hany, Bool.false_eq_true, if_false] at h
              injection h with hp
              injection hp with ha hb
              exact ⟨ha.symm, hb.symm⟩
          · rw [Bool.not_eq_true] at hval
            simp only [hval, Bool.not_false, if_true] at h
            exact Except.noConfusion h
    obtain ⟨hu, hs⟩ := hok
    have hidx : idx < users.length := by
      rcases List.get?_eq_some.mp hget with ⟨hlt, _⟩
      exact hlt
    refine ⟨idx, old, hget, hid, ?_, ?_, ?_, ?_, ?_, ?_, ?_, ?_, ?_, ?_⟩
    · rw [hu]; rfl
    · intro n hn; rw [hu]; simp [applyUpdates, hn]
    · intro hn; rw [hu]; simp [applyUpdates, hn]
    · intro e he; rw [hu]; simp [applyUpdates, he]
    · intro he; rw [hu]; simp [applyUpdates, he]
    · intro a ha; rw [hu]; simp [applyUpdates, ha]
    · intro ha; rw [hu]; simp [applyUpdates, ha]
    · rw [hs, List.length_set]
    · rw [hs, hu, List.get?_set_eq_of_lt _ hidx]
    · intro j v hj hvne
      rw [hs]
      by_cases hji : idx = j
      · subst hji
        rw [hget] at hj
        cases hj
        exact absurd hid hvne
      · rw [List.get?_set_ne _ _ hji]
        exact hj

/-- Witness for `updateUser_frame` at a concrete two-record store. -/
theorem updateUser_frame_witness :
    ∃ i old,
      [(⟨"1", "A", "a@b.c", none⟩ : User), ⟨"2", "B", "b@b.c", some 40⟩].get? i
          = some old ∧
      old.id = "2" ∧
      (⟨"2", "B", "b@b.c", some 41⟩ : User).id = old.id ∧
      (∀ n, (⟨none, none, some 41⟩ : Updates).name = some n →
        (⟨"2", "B", "b@b.c", some 41⟩ : User).name = n) ∧
      ((⟨none, none, some 41⟩ : Updates).name = none →
        (⟨"2", "B", "b@b.c", some 41⟩ : User).name = old.name) ∧
      (∀ e, (⟨none, none, some 41⟩ : Updates).email = some e →
        (⟨"2", "B", "b@b.c", some 41⟩ : User).email = e) ∧
      ((⟨none, none, some 41⟩ : Updates).email = none →
        (⟨"2", "B", "b@b.c", some 41⟩ : User).email = old.email) ∧
      (∀ a, (⟨none, none, some 41⟩ : Updates).age = some a →
        (⟨"2", "B", "b@b.c", some 41⟩ : User).age = some a) ∧
      ((⟨none, none, some 41⟩ : Updates).age = none →
        (⟨"2", "B", "b@b.c", some 41⟩ : User).age = old.age) ∧
      ([(⟨"1", "A", "a@b.c", none⟩ : User), ⟨"2", "B", "b@b.c", some 41⟩]).length
          = ([(⟨"1", "A", "a@b.c", none⟩ : User), ⟨"2", "B", "b@b.c", some 40⟩]).length ∧
      ([(⟨"1", "A", "a@b.c", none⟩ : User), ⟨"2", "B", "b@b.c", some 41⟩]).get? i
          = some ⟨"2", "B", "b@b.c", some 41⟩ ∧
      (∀ j v, [(⟨"1", "A", "a@b.c", none⟩ : User), ⟨"2", "B", "b@b.c", some 40⟩].get? j
            = some v → v.id ≠ "2" →
        ([(⟨"1", "A", "a@b.c", none⟩ : User), ⟨"2", "B", "b@b.c", some 41⟩]).get? j
          = some v) :=
  updateUser_frame
    [⟨"1", "A", "a@b.c", none⟩, ⟨"2", "B", "b@b.c", some 40⟩] "2" ⟨none, none, some 41⟩
    ⟨"2", "B", "b@b.c", some 41⟩
    [⟨"1", "A", "a@b.c", none⟩, ⟨"2", "B", "b@b.c", some 41⟩] (by decide)

/-- C6 (counterexample): after deleting id `"1"` from a store that also
holds id `"11"`, `search("1")` is NOT empty — search matches the keyword
as a substring of ids, names and emails, and `"11"` contains `"1"`. -/
theorem deleteUser_then_search_nonempty :
    deleteUserFS
        (FileContent.arrayOf
          [⟨"1", "An", "an@x.com", none⟩, ⟨"11", "Bo", "bo@x.com", none⟩]) "1"
      = (FileContent.arrayOf [⟨"11", "Bo", "bo@x.com", none⟩], Except.ok true) ∧
    searchUsersFS (FileContent.arrayOf [⟨"11", "Bo", "bo@x.com", none⟩]) "1"
      = (FileContent.arrayOf [⟨"11", "Bo", "bo@x.com", none⟩],
         Except.ok [⟨"11", "Bo", "bo@x.com", none⟩]) ∧
    ([(⟨"11", "Bo", "bo@x.com", none⟩ : User)] : List User) ≠ [] := by
  decide

/-- C6 (amended): when some record has the id, `delete` succeeds and a
subsequent `search(id)` returns no record WITH that id (though records
whose fields merely contain it as a substring may appear); when no record
has the id, `delete` fails with `NotFoundError` and the persisted store
is unchanged. -/
theorem deleteUser_search_no_matching_id (fs : FileContent) (users : List User)
    (id : String) (hread : readStore fs = some users) :
    ((∃ u ∈ users, u.id = id) →
      ∃ fs' res, deleteUserFS fs id = (fs', Except.ok true) ∧
        searchUsersFS fs' id = (fs', Except.ok res) ∧
        ∀ u ∈ res, u.id ≠ id) ∧
    ((∀ u ∈ users, u.id ≠ id) →
      ∃ fs', deleteUserFS fs id = (fs', Except.error (Err.notFound "Không tìm thấy User để xoá.")) ∧
        readStore fs' = some users) := by
  have hfilter_ne : ∀ u ∈ users.filter (fun v => v.id != id), u.id ≠ id := by
    intro u hu
    have := (List.mem_filter.mp hu).2
    simpa using this
  constructor
  · intro hex
    obtain ⟨w, hw, hwid⟩ := hex
    have hlt : (users.filter (fun v => v.id != id)).length < users.length := by
      refine List.length_filter_lt_length_iff_exists.mpr ⟨w, hw, ?_⟩
      simp [hwid]
    have hdel : deleteUser users id = .ok (users.filter (fun v => v.id != id)) := by
      unfold deleteUser
      rw [if_neg (Nat.ne_of_lt hlt)]
    cases fs with
    | missing =>
      have husers : users = [] := by simpa [readStore] using hread.symm
      subst husers
      exact absurd hw (List.not_mem_nil w)
    | nonArray =>
      have husers : users = [] := by simpa [readStore] using hread.symm
      subst husers
      exact absurd hw (List.not_mem_nil w)
    | invalid m => simp [readStore] at hread
    | arrayOf us =>
      have husers : us = users := by simpa [readStore] using hread
      subst husers
      refine ⟨FileContent.arrayOf (us.filter (fun v => v.id != id)),
        searchUsers (us.filter (fun v => v.id != id)) id, ?_, rfl, ?_⟩
      · simp [deleteUserFS, loadUsersFS, hdel, saveUsersFS]
      · intro u hu
        exact hfilter_ne u (searchUsers_mem_subset _ id u hu)
  · intro hall
    have hfeq : users.filter (fun v => v.id != id) = users :=
      List.filter_eq_self.mpr (fun u hu => by simpa using hall u hu)
    have hdel : deleteUser users id
        = .error (Err.notFound "Không tìm thấy User để xoá.") := by
      unfold deleteUser
      rw [hfeq, if_pos rfl]
    cases fs with
    | missing =>
      have husers : users = [] := by simpa [readStore] using hread.symm
      subst husers
      exact ⟨FileContent.arrayOf [],
        by simp [deleteUserFS, loadUsersFS, hdel, saveUsersFS], rfl⟩
    | nonArray =>
      have husers : users = [] := by simpa [readStore] using hread.symm
      subst husers
      exact ⟨FileContent.nonArray, by simp [deleteUserFS, loadUsersFS, hdel], rfl⟩
    | invalid m => simp [readStore] at hread
    | arrayOf us =>
      have husers : us = users := by simpa [readStore] using hread
      subst husers
      exact ⟨FileContent.arrayOf us, by simp [deleteUserFS, loadUsersFS, hdel], rfl⟩

/-- Witness for `deleteUser_search_no_matching_id` at a concrete store. -/
theorem deleteUser_search_no_matching_id_witness :
    ∃ fs' res,
      deleteUserFS (FileContent.arrayOf
          [⟨"1", "An", "an@x.com", none⟩, ⟨"11", "Bo", "bo@x.com", none⟩]) "1"
        = (fs', Except.ok true) ∧
      searchUsersFS fs' "1" = (fs', Except.ok res) ∧
      ∀ u ∈ res, u.id ≠ "1" :=
  (deleteUser_search_no_matching_id
      (FileContent.arrayOf [⟨"1", "An", "an@x.com", none⟩, ⟨"11", "Bo", "bo@x.com", none⟩])
      [⟨"1", "An", "an@x.com", none⟩, ⟨"11", "Bo", "bo@x.com", none⟩] "1" rfl).1
    ⟨⟨"1", "An", "an@x.com", none⟩, by decide, rfl⟩

/-- Modelled from the spec: "parses as a base-10 integer" — strict base-10
integer parsing of the trimmed input, an optional sign followed by decimal
digits only. Stated for comparison with `parseOptionalAge`, which uses JS
`Number` conversion instead. -/
def specBase10Int (s : String) : Option Int :=
  match (jsTrim s).toList with
  | '+' :: ds =>
    if !ds.isEmpty && ds.all Char.isDigit then some ((decDigits ds : Nat) : Int) else none
  | '-' :: ds =>
    if !ds.isEmpty && ds.all Char.isDigit then some (-((decDigits ds : Nat) : Int)) else none
  | ds =>
    if !ds.isEmpty && ds.all Char.isDigit then some ((decDigits ds : Nat) : Int) else none

/-- C8 (counterexample): `parseOptionalAge` is not base-10 integer
parsing: the hexadecimal literal `"0x96"` is accepted as 150 by the code
(JS `Number` semantics), while base-10 integer parsing of `"0x96"` fails,
so the claim would demand a `ValidationError` here. -/
theorem parseOptionalAge_accepts_hex :
    parseOptionalAge "0x96" = .ok (some 150) ∧ specBase10Int "0x96" = none := by
  decide

/-- C8 (amended): `parseOptionalAge` trims its input; empty trimmed input
yields "absent"; otherwise the input is converted with JS `Number`
semantics and accepted exactly when the result is an integer in
`[0, 150]`; every failure is the `ValidationError` message. -/
theorem parseOptionalAge_characterization (s : String) :
    (parseOptionalAge s = .ok none ↔ jsTrim s = "") ∧
    (∀ n : Int, parseOptionalAge s = .ok (some n) ↔
      (jsTrim s ≠ "" ∧ jsNumber (jsTrim s) = JsNum.val (n : Rat) ∧ 0 ≤ n ∧ n ≤ 150)) ∧
    (∀ e, parseOptionalAge s = .error e → e = Err.validation ageErrMsg) ∧
    ((jsTrim s ≠ "" ∧
        ∀ n : Int, ¬(jsNumber (jsTrim s) = JsNum.val (n : Rat) ∧ 0 ≤ n ∧ n ≤ 150)) →
      parseOptionalAge s = .error (Err.validation ageErrMsg)) := by
  by_cases ht : jsTrim s = ""
  · have hres : parseOptionalAge s = .ok none := by
      simp only [parseOptionalAge, if_pos ht]
    refine ⟨by simp [hres, ht], ?_, ?_, ?_⟩
    · intro n
      simp [hres, ht]
    · intro e he
      rw [hres] at he
      exact Except.noConfusion he
    · rintro ⟨hne, _⟩
      exact absurd ht hne
  · cases hjs : jsNumber (jsTrim s) with
    | val q =>
      by_cases hcond : q.den = 1 ∧ 0 ≤ q ∧ q ≤ 150
      · have hres : parseOptionalAge s = .ok (some q.num) := by
          simp only [parseOptionalAge, if_neg ht, hjs, if_pos hcond]
        have hqcast : ((q.num : Rat)) = q := (Rat.den_eq_one_iff q).mp hcond.1
        have hnum0 : 0 ≤ q.num := Rat.num_nonneg.mpr hcond.2.1
        have hnum150 : q.num ≤ 150 := by
          have h150 : ((q.num : Rat)) ≤ ((150 : Int) : Rat) := by
            rw [hqcast]
            exact_mod_cast hcond.2.2
          exact_mod_cast h150
        refine ⟨?_, ?_, ?_, ?_⟩
        · rw [hres]
          simp [ht]
        · intro n
          rw [hres]
          constructor
          · intro hn
            have : q.num = n := by
              injection hn with hn'
              injection hn'
            subst this
            exact ⟨ht, by rw [hqcast], hnum0, hnum150⟩
          · rintro ⟨-, hval, -, -⟩
            have hq : q = (n : Rat) := by injection hval
            have : q.num = n := by rw [hq, Rat.num_intCast]
            rw [this]
        · intro e he
          rw [hres] at he
          exact Except.noConfusion he
        · rintro ⟨-, hall⟩
          exact absurd ⟨by rw [hqcast], hnum0, hnum150⟩ (hall q.num)
      · have hres : parseOptionalAge s = .error (Err.validation ageErrMsg) := by
          simp only [parseOptionalAge, if_neg ht, hjs, if_neg hcond]
        refine ⟨?_, ?_, ?_, fun _ => hres⟩
        · rw [hres]
          simp [ht]
        · intro n
          rw [hres]
          constructor
          · intro hn
            exact Except.noConfusion hn
          · rintro ⟨-, hval, hn0, hn150⟩
            have hq : q = (n : Rat) := by injection hval
            refine absurd ?_ hcond
            refine ⟨by rw [hq]; exact Rat.den_intCast n, ?_, ?_⟩
            · rw [hq]
              exact_mod_cast hn0
            · rw [hq]
              have : ((n : Rat)) ≤ ((150 : Int) : Rat) := by exact_mod_cast hn150
              exact_mod_cast this
        · intro e he
          rw [hres] at he
          injection he with he'
          exact he'.symm
    | nan =>
      have hres : parseOptionalAge s = .error (Err.validation ageErrMsg) := by
        simp only [parseOptionalAge, if_neg ht, hjs]
      refine ⟨?_, ?_, ?_, fun _ => hres⟩
      · rw [hres]
        simp [ht]
      · intro n
        rw [hres]
        constructor
        · intro hn
          exact Except.noConfusion hn
        · rintro ⟨-, hval, -, -⟩
          exact JsNum.noConfusion hval
      · intro e he
        rw [hres] at he
        injection he with he'
        exact he'.symm
    | inf b =>
      have hres : parseOptionalAge s = .error (Err.validation ageErrMsg) := by
        simp only [parseOptionalAge, if_neg ht, hjs]
      refine ⟨?_, ?_, ?_, fun _ => hres⟩
      · rw [hres]
        simp [ht]
      · intro n
        rw [hres]
        constructor
        · intro hn
          exact Except.noConfusion hn
        · rintro ⟨-, hval, -, -⟩
          exact JsNum.noConfusion hval
      · intro e he
        rw [hres] at he
        injection he with he'
        exact he'.symm

/-- Witness for `parseOptionalAge_characterization`: both inclusive
boundary values are accepted. -/
theorem parseOptionalAge_characterization_witness :
    parseOptionalAge "150" = .ok (some 150) ∧ parseOptionalAge "0" = .ok (some 0) :=
  ⟨((parseOptionalAge_characterization "150").2.1 150).mpr
      ⟨by decide, by decide, by decide, by decide⟩,
    ((parseOptionalAge_characterization "0").2.1 0).mpr
      ⟨by decide, by decide, by decide, by decide⟩⟩

/-- Unfolding of the validation predicate into its three field rules. -/
theorem validUser_iff (u : User) :
    validUser u = true ↔
      (jsTrim u.name ≠ "" ∧ isValidEmail u.email = true ∧
        ∀ a, u.age = some a → 0 ≤ a ∧ a ≤ 150) := by
  unfold validUser
  cases hage : u.age with
  | none =>
    simp [bne_iff_ne]
  | some a =>
    simp [bne_iff_ne, decide_eq_true_eq, and_assoc]

/-- Overwriting one position of an invariant-satisfying store with a
valid record whose id is unchanged and whose lowercased email occurs at
no other position preserves the store invariant. -/
theorem storeInv_set (users : List User) (hInv : StoreInv users) (idx : Nat) (old : User)
    (hget : users.get? idx = some old) (updated : User)
    (hidid : updated.id = old.id)
    (hvalid : validUser updated = true)
    (hemail : ∀ j v, users.get? j = some v →
      jsToLower v.email = jsToLower updated.email → j = idx) :
    StoreInv (users.set idx updated) := by
  obtain ⟨hids, hemails, hall⟩ := hInv
  refine ⟨?_, ?_, ?_⟩
  · rw [List.map_set]
    refine nodup_set_of hids ?_
    intro j hj hcontra
    rcases List.get?_eq_some.mp hcontra with ⟨hjlt, hjeq⟩
    rw [List.get?_map] at hcontra
    rcases Option.map_eq_some'.mp hcontra with ⟨v, hv, hveq⟩
    have hidxm : (users.map User.id).get? idx = some old.id := by
      rw [List.get?_map, hget]; rfl
    have hjm : (users.map User.id).get? j = some old.id := by
      rw [List.get?_map, hv]
      simp [hveq, hidid]
    exact hj (nodup_get?_inj hids hjm hidxm)
  · rw [List.map_set]
    refine nodup_set_of hemails ?_
    intro j hj hcontra
    rw [List.get?_map] at hcontra
    rcases Option.map_eq_some'.mp hcontra with ⟨v, hv, hveq⟩
    exact hj (hemail j v hv hveq)
  · intro v hv
    rcases List.mem_or_eq_of_mem_set hv with hmem | rfl
    · exact hall v hmem
    · exact hvalid

/-- The operation `addUser` preserves the store invariant when the fresh id is new and
the name/age inputs satisfy the validation rules the shell enforces. -/
theorem addUser_preserves (users : List User) (hInv : StoreInv users)
    (freshId name email : String) (age : Option Int)
    (hfresh : ∀ u ∈ users, u.id ≠ freshId)
    (hname : jsTrim name ≠ "")
    (hage : ∀ a, age = some a → 0 ≤ a ∧ a ≤ 150) :
    ∀ u s', addUser users freshId name email age = .ok (u, s') → StoreInv s' := by
  intro u s' h
  unfold addUser at h
  by_cases hval : isValidEmail email
  · simp only [hval, Bool.not_true, Bool.false_eq_true, if_false] at h
    by_cases hany : users.any (fun v => jsToLower v.email == jsToLower email)
    · simp only [hany, if_true] at h
      exact Except.noConfusion h
    · rw [Bool.not_eq_true] at hany
      simp only [hany, Bool.false_eq_true, if_false] at h
      injection h with hp
      injection hp with hu hs
      subst hs
      obtain ⟨hids, hemails, hall⟩ := hInv
      have hnoconf : ∀ v ∈ users, jsToLower v.email ≠ jsToLower email := by
        intro v hv
        have := List.any_eq_false.mp hany v hv
        simpa using this
      refine ⟨?_, ?_, ?_⟩
      · rw [List.map_append]
        rw [List.nodup_append]
        refine ⟨hids, List.nodup_singleton _, ?_⟩
        intro a ha hb
        rcases List.mem_map.mp ha with ⟨v, hv, rfl⟩
        rcases List.mem_singleton.mp hb with rfl
        exact hfresh v hv rfl
      · rw [List.map_append]
        rw [List.nodup_append]
        refine ⟨hemails, List.nodup_singleton _, ?_⟩
        intro a ha hb
        rcases List.mem_map.mp ha with ⟨v, hv, rfl⟩
        rcases List.mem_singleton.mp hb with heq
        exact hnoconf v hv heq
      · intro v hv
        rcases List.mem_append.mp hv with hmem | hnew
        · exact hall v hmem
        · rcases List.mem_singleton.mp hnew with rfl
          exact (validUser_iff _).mpr ⟨hname, hval, fun a ha => hage a ha⟩
  · rw [Bool.not_eq_true] at hval
    simp only [hval, Bool.not_false, if_true] at h
    exact Except.noConfusion h

/-- The operation `updateUser` preserves the store invariant when the updates are
shaped as the shell produces them (present fields non-empty after
trimming, age already range-checked). -/
theorem updateUser_preserves (users : List User) (hInv : StoreInv users)
    (id : String) (upd : Updates)
    (hun : ∀ n, upd.name = some n → jsTrim n ≠ "")
    (hue : ∀ e, upd.email = some e → e ≠ "")
    (hua : ∀ a, upd.age = some a → 0 ≤ a ∧ a ≤ 150) :
    ∀ u s', updateUser users id upd = .ok (u, s') → StoreInv s' := by
  intro u s' h
  cases hfind : findUserIdx users id with
  | none =>
    rw [updateUser, hfind] at h
    exact Except.noConfusion h
  | some p =>
    obtain ⟨idx, old⟩ := p
    obtain ⟨hget, hid⟩ := findUserIdx_eq_some users id idx old hfind
    have hold_mem : old ∈ users := List.get?_mem hget
    have hold_valid := (validUser_iff old).mp (hInv.2.2 old hold_mem)
    rw [updateUser, hfind] at h
    have hmapget : (users.map (fun v => jsToLower v.email)).get? idx
        = some (jsToLower old.email) := by
      rw [List.get?_map, hget]; rfl
    rcases hupde : upd.email with _ | e
    · rw [hupde] at h
      simp only [] at h
      injection h with hp
      injection hp with hu hs
      subst hs
      refine storeInv_set users hInv idx old hget (applyUpdates old upd) rfl ?_ ?_
      · refine (validUser_iff _).mpr ⟨?_, ?_, ?_⟩
        · rcases hn : upd.name with _ | n
          · simpa [applyUpdates, hn] using hold_valid.1
          · simpa [applyUpdates, hn] using hun n hn
        · simpa [applyUpdates, hupde] using hold_valid.2.1
        · rcases ha : upd.age with _ | a
          · intro b hb
            refine hold_valid.2.2 b ?_
            simpa [applyUpdates, ha] using hb
          · intro b hb
            have : a = b := by simpa [applyUpdates, ha] using hb
            exact this ▸ hua a ha
      · intro j v hv hveq
        have hvmap : (users.map (fun w => jsToLower w.email)).get? j
            = some (jsToLower old.email) := by
          rw [List.get?_map, hv]
          simp only [Option.map_some', Option.some_inj]
          simpa [applyUpdates, hupde] using hveq
        exact nodup_get?_inj hInv.2.1 hvmap hmapget
    · have hne := hue e hupde
      have hbe : (e == "") = false := beq_eq_false_iff_ne.mpr hne
      rw [hupde] at h
      simp only [hbe, Bool.false_eq_true, if_false] at h
      by_cases hval : isValidEmail e
      · simp only [hval, Bool.not_true, Bool.false_eq_true, if_false] at h
        by_cases hany : users.any (fun v => jsToLower v.email == jsToLower e && v.id != id)
        · simp only [hany, if_true] at h
          exact Except.noConfusion h
        · rw [Bool.not_eq_true] at hany
          simp only [hany, Bool.false_eq_true, if_false] at h
          injection h with hp
          injection hp with hu hs
          subst hs
          have hnocoll : ∀ v ∈ users, jsToLower v.email = jsToLower e → v.id = id := by
            intro v hv hveq
            have := List.any_eq_false.mp hany v hv
            by_contra hvid
            exact this (by simp [hveq, hvid])
          refine storeInv_set users hInv idx old hget (applyUpdates old upd) rfl ?_ ?_
          · refine (validUser_iff _).mpr ⟨?_, ?_, ?_⟩
            · rcases hn : upd.name with _ | n
              · simpa [applyUpdates, hn] using hold_valid.1
              · simpa [applyUpdates, hn] using hun n hn
            · simpa [applyUpdates, hupde] using hval
            · rcases ha : upd.age with _ | a
              · intro b hb
                refine hold_valid.2.2 b ?_
                simpa [applyUpdates, ha] using hb
              · intro b hb
                have : a = b := by simpa [applyUpdates, ha] using hb
                exact this ▸ hua a ha
          · intro j v hv hveq
            have hveq' : jsToLower v.email = jsToLower e := by
              simpa [applyUpdates, hupde] using hveq
            have hvid : v.id = id := hnocoll v (List.get?_mem hv) hveq'
            have hvmapid : (users.map User.id).get? j = some old.id := by
              rw [List.get?_map, hv]
              simp [hvid, hid]
            have hidxmapid : (users.map User.id).get? idx = some old.id := by
              rw [List.get?_map, hget]; rfl
            exact nodup_get?_inj hInv.1 hvmapid hidxmapid
      · rw [Bool.not_eq_true] at hval
        simp only [hval, Bool.not_false, if_true] at h
        exact Except.noConfusion h

/-- The operation `deleteUser` preserves the store invariant. -/
theorem deleteUser_preserves (users : List User) (hInv : StoreInv users) (id : String) :
    ∀ s', deleteUser users id = .ok s' → StoreInv s' := by
  intro s' h
  unfold deleteUser at h
  by_cases hlen : (users.filter (fun v => v.id != id)).length = users.length
  · rw [if_pos hlen] at h
    exact Except.noConfusion h
  · rw [if_neg hlen] at h
    injection h with hs
    subst hs
    refine ⟨?_, ?_, ?_⟩
    · exact List.Nodup.sublist (List.Sublist.map User.id (List.filter_sublist users)) hInv.1
    · exact List.Nodup.sublist
        (List.Sublist.map (fun v => jsToLower v.email) (List.filter_sublist users)) hInv.2.1
    · intro v hv
      exact hInv.2.2 v (List.mem_of_mem_filter hv)

/-- C2: every mutating operation preserves the store invariant — no
duplicate ids, no case-insensitively equal emails, every record valid —
for inputs shaped as the system produces them (fresh generated id,
trimmed non-empty name, range-checked age, update fields present only
when non-empty / already validated by `parseOptionalAge`). -/
theorem crud_ops_preserve_store_invariant (users : List User) (hInv : StoreInv users)
    (freshId name email : String) (age : Option Int) (id : String) (upd : Updates)
    (hfresh : ∀ u ∈ users, u.id ≠ freshId)
    (hname : jsTrim name ≠ "")
    (hage : ∀ a, age = some a → 0 ≤ a ∧ a ≤ 150)
    (hun : ∀ n, upd.name = some n → jsTrim n ≠ "")
    (hue : ∀ e, upd.email = some e → e ≠ "")
    (hua : ∀ a, upd.age = some a → 0 ≤ a ∧ a ≤ 150) :
    (∀ u s', addUser users freshId name email age = .ok (u, s') → StoreInv s') ∧
    (∀ u s', updateUser users id upd = .ok (u, s') → StoreInv s') ∧
    (∀ s', deleteUser users id = .ok s' → StoreInv s') :=
  ⟨addUser_preserves users hInv freshId name email age hfresh hname hage,
   updateUser_preserves users hInv id upd hun hue hua,
   deleteUser_preserves users hInv id⟩

/-- Witness for `crud_ops_preserve_store_invariant`: the invariant after
a concrete `add` on a concrete invariant-satisfying store. -/
theorem crud_ops_preserve_store_invariant_witness :
    StoreInv [⟨"u1", "An", "an@x.com", some 30⟩, ⟨"u2", "Bob", "bob@x.com", none⟩] :=
  (crud_ops_preserve_store_invariant [⟨"u1", "An", "an@x.com", some 30⟩] (by decide)
      "u2" "Bob" "bob@x.com" none "u1" ⟨none, none, none⟩
      (by decide)
      (by decide)
      (by intro a ha; exact Option.noConfusion ha)
      (by intro n hn; exact Option.noConfusion hn)
      (by intro e he; exact Option.noConfusion he)
      (by intro a ha; exact Option.noConfusion ha)).1
    ⟨"u2", "Bob", "bob@x.com", none⟩
    [⟨"u1", "An", "an@x.com", some 30⟩, ⟨"u2", "Bob", "bob@x.com", none⟩]
    (by decide)
